import Mathlib

/-!
Verification of the asset-fuse prefetch/materialization engine.

Shallow embedding of the Go sources:
* `integrity/integrity.go` — algorithms, checksums, integrity bundles, digests, SRI parsing
* `integrity` checksum cache (`ChecksumCache`)
* `service/cas/disk.go` — local on-disk CAS (`FindMissingBlobs`, `BatchReadBlobs`,
  `ReadStream`/`ReadRandomAccessStream`)
* `service/prefetcher/prefetcher.go` — remote→local transfer and `materializeWithDigest`
* `fs/node_leaf.go` — `leaf.Getxattr`

Go byte slices are modelled as `List Nat` (each entry one byte), Go `int64` as `Int`,
Go `string` as Lean `String` (compared at the character level; all string constants
involved are ASCII, where Go byte indexing and Lean character indexing agree).
Fallible operations return `Option`/sum-like inductives; a Go `panic` is modelled as an
explicit `crash`/`panicked` outcome.
-/

namespace AssetFuse

/-! ## Algorithms (integrity/integrity.go) -/

/-- The closed set of supported digest algorithms
(`SHA256`, `SHA384`, `SHA512`, `Blake3` in `integrity/integrity.go`). -/
inductive Algorithm where
  | sha256
  | sha384
  | sha512
  | blake3
deriving DecidableEq

/-- Go `Algorithm.SizeBytes` from integrity/integrity.go: the output size of the hash. -/
def Algorithm.sizeBytes : Algorithm → Nat
  | .sha256 => 32
  | .sha384 => 48
  | .sha512 => 64
  | .blake3 => 32

/-- string constant for algorithm name lookups -/
def strSha256 : String := "sha256"

def strSha384 : String := "sha384"

def strSha512 : String := "sha512"

def strBlake3 : String := "blake3"

/-- Go `AlgorithmFromString` from integrity/integrity.go on the character
level: lowercases the name and matches it against the known algorithm names. -/
def algorithmFromChars (name : List Char) : Option Algorithm :=
  let name := name.map Char.toLower
  if name = strSha256.data then some .sha256
  else if name = strSha384.data then some .sha384
  else if name = strSha512.data then some .sha512
  else if name = strBlake3.data then some .blake3
  else none

/-- Go `AlgorithmFromString` from integrity/integrity.go. -/
def AlgorithmFromString (name : String) : Option Algorithm :=
  algorithmFromChars name.data

/-! ## Digests (integrity/integrity.go) -/

/-- Go `Digest` from integrity/integrity.go: an inlined 64-byte hash buffer plus
the content size in bytes.  The Go `[64]byte` array is modelled as a `List Nat`
of length 64 (unused tail bytes are zero, exactly as Go zero-initializes the
array before `copy`). -/
structure Digest where
  hash : List Nat
  sizeBytes : Int
deriving DecidableEq

/-- The effect of `copy(out.hash[:], hash)` on a zero-initialized `[64]byte`:
the hash bytes followed by zero padding, truncated to 64 entries. -/
def mkHash64 (h : List Nat) : List Nat := (h ++ List.replicate 64 0).take 64

/-- Go `NewDigest` from integrity/integrity.go (the callers below always pass a
hash whose length matches the algorithm, which is what the Go code asserts). -/
def NewDigest (hash : List Nat) (sizeBytes : Int) (_algorithm : Algorithm) : Digest :=
  { hash := mkHash64 hash, sizeBytes := sizeBytes }

/-- Go `Digest.Uninitialized` from integrity/integrity.go:
size is 0 and the whole 64-byte buffer is zero. -/
def Digest.Uninitialized (d : Digest) : Bool :=
  d.sizeBytes == 0 && d.hash == List.replicate 64 0

/-- Go `Digest.Equals` from integrity/integrity.go: uninitialized digests are never
equal to anything; otherwise sizes must agree and the hash buffers must agree on
the width of the algorithm (32/48/64/32 bytes). -/
def Digest.Equals (d other : Digest) (algorithm : Algorithm) : Bool :=
  if d.Uninitialized || other.Uninitialized then false
  else if d.sizeBytes != other.sizeBytes then false
  else
    match algorithm with
    | .sha256 => d.hash.take 32 == other.hash.take 32
    | .sha384 => d.hash.take 48 == other.hash.take 48
    | .sha512 => d.hash.take 64 == other.hash.take 64
    | .blake3 => d.hash.take 32 == other.hash.take 32

/-- Go `Digest.Hex`/`CopyHashInto` read the first `algorithm.SizeBytes()` bytes of
the buffer; this is the byte content they expose. -/
def Digest.hashBytes (d : Digest) (algorithm : Algorithm) : List Nat :=
  d.hash.take algorithm.sizeBytes

/-! ## Checksums and Integrity (integrity/integrity.go) -/

/-- Go `Checksum` from integrity/integrity.go: a single algorithm plus hash bytes. -/
structure Checksum where
  algorithm : Algorithm
  hash : List Nat
deriving DecidableEq

/-- Go `Integrity` from integrity/integrity.go: up to one checksum per algorithm.
A field is `none` exactly when the Go `Checksum.Hash` slice is nil (absent);
the algorithm tag of each stored checksum is implied by its field. -/
structure Integrity where
  sha256 : Option (List Nat) := none
  sha384 : Option (List Nat) := none
  sha512 : Option (List Nat) := none
  blake3 : Option (List Nat) := none
deriving DecidableEq

/-- Go `Integrity.Empty` from integrity/integrity.go: all four hash slices are nil. -/
def Integrity.Empty (i : Integrity) : Bool :=
  i.sha256.isNone && i.sha384.isNone && i.sha512.isNone && i.blake3.isNone

/-- Go `Integrity.ChecksumForAlgorithm` from integrity/integrity.go. -/
def Integrity.checksumForAlgorithm (i : Integrity) (alg : Algorithm) : Option Checksum :=
  match alg with
  | .sha256 => i.sha256.map (fun h => ⟨.sha256, h⟩)
  | .sha384 => i.sha384.map (fun h => ⟨.sha384, h⟩)
  | .sha512 => i.sha512.map (fun h => ⟨.sha512, h⟩)
  | .blake3 => i.blake3.map (fun h => ⟨.blake3, h⟩)

/-- Go `Integrity.Items` from integrity/integrity.go: the present checksums in the
fixed iteration order SHA256, SHA384, SHA512, Blake3. -/
def Integrity.items (i : Integrity) : List Checksum :=
  (match i.sha256 with | some h => [⟨.sha256, h⟩] | none => []) ++
  (match i.sha384 with | some h => [⟨.sha384, h⟩] | none => []) ++
  (match i.sha512 with | some h => [⟨.sha512, h⟩] | none => []) ++
  (match i.blake3 with | some h => [⟨.blake3, h⟩] | none => [])

/-- Go `Integrity.Equivalent` from integrity/integrity.go, translated statement by
statement.  Note the Go source guards the SHA-512 and Blake3 branches with
`... && !bytes.Equal(...)`, so `matchingChecksums` is only incremented for those
two algorithms when the hashes differ (in which case the function immediately
returns false); matching SHA-512/Blake3 pairs never reach the counter. -/
def Integrity.Equivalent (i other : Integrity) : Bool :=
  if i.Empty || other.Empty then false
  else Id.run do
    let mut matchingChecksums : Nat := 0
    if i.sha256.isSome && other.sha256.isSome then
      matchingChecksums := matchingChecksums + 1
      if i.sha256 != other.sha256 then
        return false
    if i.sha384.isSome && other.sha384.isSome then
      matchingChecksums := matchingChecksums + 1
      if i.sha384 != other.sha384 then
        return false
    if i.sha512.isSome && other.sha512.isSome && i.sha512 != other.sha512 then
      matchingChecksums := matchingChecksums + 1
      if i.sha512 != other.sha512 then
        return false
    if i.blake3.isSome && other.blake3.isSome && i.blake3 != other.blake3 then
      matchingChecksums := matchingChecksums + 1
      if i.blake3 != other.blake3 then
        return false
    return matchingChecksums > 0

/-! ## SRI parsing (integrity/integrity.go, `ChecksumFromSRI`) -/

/-- Value of a single standard-base64 alphabet character. -/
def b64Val (c : Char) : Option Nat :=
  if 'A' ≤ c ∧ c ≤ 'Z' then some (c.toNat - 65)
  else if 'a' ≤ c ∧ c ≤ 'z' then some (c.toNat - 97 + 26)
  else if '0' ≤ c ∧ c ≤ '9' then some (c.toNat - 48 + 52)
  else if c = '+' then some 62
  else if c = '/' then some 63
  else none

/-- Decode base64 input four characters at a time, with `=` padding allowed only
in the final quantum (Go `StdEncoding`, non-strict: trailing bits are not
checked). -/
def decodeQuanta : List Char → Option (List Nat)
  | [] => some []
  | a :: b :: c :: d :: rest =>
    match b64Val a, b64Val b with
    | some va, some vb =>
      if c = '=' then
        if d = '=' ∧ rest = [] then some [va * 4 + vb / 16]
        else none
      else
        match b64Val c with
        | some vc =>
          if d = '=' then
            if rest = [] then some [va * 4 + vb / 16, (vb % 16) * 16 + vc / 4]
            else none
          else
            match b64Val d with
            | some vd =>
              (decodeQuanta rest).map
                (fun tl => (va * 4 + vb / 16) :: ((vb % 16) * 16 + vc / 4) ::
                  ((vc % 4) * 64 + vd) :: tl)
            | none => none
        | none => none
    | _, _ => none
  | _ => none

/-- Go `base64.StdEncoding.DecodeString`: carriage returns and newlines are
ignored, everything else must form complete padded quanta. -/
def base64StdDecode (cs : List Char) : Option (List Nat) :=
  decodeQuanta (cs.filter (fun c => c ≠ '\r' ∧ c ≠ '\n'))

/-- Outcome of `ChecksumFromSRI`: the Go function can return a checksum, return
an error, or panic (crash) on inputs shorter than 7 bytes. -/
inductive SriOutcome where
  | crash
  | fail
  | ok (c : Checksum)
deriving DecidableEq

def sriSha256 : String := "sha256-"

def sriSha384 : String := "sha384-"

def sriSha512 : String := "sha512-"

def sriBlake3 : String := "blake3-"

/-- Go `ChecksumFromSRI` from integrity/integrity.go.  The Go source immediately
evaluates `integrity[:7]`, which panics with an out-of-range slice when the
input is shorter than 7 bytes — modelled as `.crash`.  Otherwise the 7-byte
algorithm tag is matched, the remainder is base64-decoded, and the hash
length is checked against the size of the algorithm. -/
def ChecksumFromSRI (s : String) : SriOutcome :=
  let cs := s.data
  if cs.length < 7 then .crash
  else
    let tag := cs.take 7
    let algOpt : Option (Algorithm × Nat) :=
      if tag = sriSha256.data then some (.sha256, 32)
      else if tag = sriSha384.data then some (.sha384, 48)
      else if tag = sriSha512.data then some (.sha512, 64)
      else if tag = sriBlake3.data then some (.blake3, 32)
      else none
    match algOpt with
    | none => .fail
    | some (alg, expectedByteSize) =>
      match base64StdDecode (cs.drop 7) with
      | none => .fail
      | some hash =>
        if hash.length ≠ expectedByteSize then .fail
        else .ok ⟨alg, hash⟩

/-! ## Checksum cache (integrity cache, `ChecksumCache`) -/

/-- Modelled from the spec: `Algorithm.Identifier` — the identifier byte of each
algorithm.  Its definition is absent from src/ (only its callers and a test are
present); the data model of the spec gives each algorithm of the closed set an
identifier byte, and the cache test demands that looking up a hash under a
identifier of a different algorithm misses, so the identifiers are distinct. -/
def Algorithm.identifier : Algorithm → Nat
  | .sha256 => 0
  | .sha384 => 1
  | .sha512 => 2
  | .blake3 => 3

/-- Go `ChecksumCache` from the integrity package: a sharded map keyed by the hash
bytes plus the algorithm identifier byte.  Sharding selects the shard from the
first hash byte, so entries with the same key always live in the same shard and
the whole structure behaves like a single map from `(hash, identifier)` to
`Digest`; the per-key `maphash` is assumed collision-free.  The map is modelled
as an association list where an insert prepends (so a lookup finds the most
recent write: Go semantics of last-writer-wins). -/
abbrev ChecksumCache := List ((List Nat × Nat) × Digest)

/-- Go `ChecksumCache.GetSlice`: empty hashes never hit; otherwise look the key up. -/
def ChecksumCache.GetSlice (c : ChecksumCache) (hash : List Nat) (identifier : Nat) :
    Option Digest :=
  if hash.length = 0 then none
  else (c.find? (fun e => e.1 = (hash, identifier))).map (fun e => e.2)

/-- Go `ChecksumCache.PutSlice`: empty hashes are ignored; otherwise the entry is
stored under `(hash, identifier)`. -/
def ChecksumCache.PutSlice (c : ChecksumCache) (hash : List Nat) (identifier : Nat)
    (digest : Digest) : ChecksumCache :=
  if hash.length = 0 then c
  else ((hash, identifier), digest) :: c

/-- The iteration inside `ChecksumCache.FromIntegrity`: look each checksum up
in order and return the first hit. -/
def fromIntegrityLoop (c : ChecksumCache) : List Checksum → Option Digest
  | [] => none
  | checksum :: rest =>
    match c.GetSlice checksum.hash checksum.algorithm.identifier with
    | some digest => some digest
    | none => fromIntegrityLoop c rest

/-- Go `ChecksumCache.FromIntegrity`: return the first hit over its
checksums in algorithm iteration order. -/
def ChecksumCache.FromIntegrity (c : ChecksumCache) (integrity : Integrity) :
    Option Digest :=
  fromIntegrityLoop c integrity.items

/-- Go `ChecksumCache.PutIntegrity`: insert the digest once per checksum present in
the integrity. -/
def ChecksumCache.PutIntegrity (c : ChecksumCache) (integrity : Integrity)
    (digest : Digest) : ChecksumCache :=
  integrity.items.foldl
    (fun acc checksum => acc.PutSlice checksum.hash checksum.algorithm.identifier digest) c

/-- An integrity holding just the checksum of `i` for algorithm `alg`
(the `I_just_α` of the spec). -/
def Integrity.justAlgorithm (i : Integrity) (alg : Algorithm) : Integrity :=
  match alg with
  | .sha256 => { sha256 := i.sha256 }
  | .sha384 => { sha384 := i.sha384 }
  | .sha512 => { sha512 := i.sha512 }
  | .blake3 => { blake3 := i.blake3 }

/-- The hash `i` stores for `alg`, if present. -/
def Integrity.hashFor (i : Integrity) (alg : Algorithm) : Option (List Nat) :=
  match alg with
  | .sha256 => i.sha256
  | .sha384 => i.sha384
  | .sha512 => i.sha512
  | .blake3 => i.blake3

/-! ## Local CAS on disk (service/cas/disk.go) -/

/-- Status codes used by the disk CAS (service/status). -/
inductive StatusCode where
  | ok
  | notFound
  | unknown
deriving DecidableEq

/-- Outcome of `os.ReadFile` on a blob path: the file does not exist, some other
error occurs, or the contents are returned (a non-nil slice, even when empty). -/
inductive FileReadOutcome where
  | notExist
  | otherError
  | content (data : List Nat)
deriving DecidableEq

/-- One entry of a `BatchReadBlobsResponse`: digest, optional data (Go nil slice
modelled as `none`), status. -/
structure ReadBlobsResponse where
  digest : Digest
  data : Option (List Nat)
  status : StatusCode
deriving DecidableEq

/-- Go `Disk.BatchReadBlobs` from service/cas/disk.go, response list only: for
each digest the blob file is read; on a not-exist error a NOT_FOUND entry is
appended, on any other error an UNKNOWN entry is appended — and in both error
cases control falls through (the Go source has no `continue` there) and a
second entry with status OK and nil data is appended for the same digest. -/
def Disk.batchReadResponses (readFile : Digest → FileReadOutcome)
    (blobDigests : List Digest) : List ReadBlobsResponse :=
  blobDigests.foldl
    (fun responses digest =>
      match readFile digest with
      | .notExist =>
        (responses ++ [⟨digest, none, .notFound⟩]) ++ [⟨digest, none, .ok⟩]
      | .otherError =>
        (responses ++ [⟨digest, none, .unknown⟩]) ++ [⟨digest, none, .ok⟩]
      | .content data => responses ++ [⟨digest, some data, .ok⟩]) []

/-- Go `Disk.BatchReadBlobs` from service/cas/disk.go: the responses plus the
overall error flag (`BatchResponseHasNonZeroStatus` is reported exactly when
some entry has nil data or a non-OK status). -/
def Disk.BatchReadBlobs (readFile : Digest → FileReadOutcome)
    (blobDigests : List Digest) : List ReadBlobsResponse × Bool :=
  let responses := Disk.batchReadResponses readFile blobDigests
  let issues :=
    (responses.filter (fun r => r.data.isNone || r.status != StatusCode.ok)).length
  (responses, issues > 0)

/-- Go `os.File.ReadAt` on a file whose contents are `B`: reads up to `count`
bytes starting at absolute offset `off`; a negative offset is an error.  The
returned list holds exactly the bytes read (Go additionally reports `io.EOF`
when fewer than `count` bytes were available). -/
def fileReadAt (B : List Nat) (off : Int) (count : Nat) : Option (List Nat) :=
  if off < 0 then none
  else some ((B.drop off.toNat).take count)

/-- Go `io.SectionReader.ReadAt` for `io.NewSectionReader(file, base, n)`:
relative offsets outside `[0, n)` yield `(0, io.EOF)`; otherwise the request is
truncated to the remaining length of the section and forwarded to the file at the
absolute offset `base + off`. -/
def sectionReadAt (B : List Nat) (base n off : Int) (count : Nat) :
    Option (List Nat) :=
  if off < 0 ∨ n ≤ off then some []
  else
    let maxAvail := n - off
    let count' := if (count : Int) > maxAvail then maxAvail.toNat else count
    fileReadAt B (base + off) count'

/-- Go `Disk.ReadStream`/`Disk.ReadRandomAccessStream` from service/cas/disk.go:
the `ReadAt` of the returned handle.  With `limit = 0` the handle is the opened blob
file itself (absolute positional reads); otherwise it is
`io.NewSectionReader(file, offset, limit)`.  `B` is the content of the blob
file (the seek to `offset` only affects the sequential reader). -/
def Disk.readRandomAccessStreamReadAt (B : List Nat) (offset limit : Int)
    (off : Int) (count : Nat) : Option (List Nat) :=
  if limit = 0 then fileReadAt B off count
  else sectionReadAt B offset limit off count

/-- Go slice expression `B[a:b]` (for `a ≤ b ≤ len B`). -/
def goSlice (B : List Nat) (a b : Nat) : List Nat := (B.take b).drop a

/-! ## Remote→local transfer (service/prefetcher/prefetcher.go) -/

/-- Go `byteStreamThreshold` from service/prefetcher/prefetcher.go: 1 MiB. -/
def byteStreamThreshold : Int := 2 ^ 20

/-- One transfer step: either a single large blob streamed by byte-stream, or a
batch of small blobs moved by one `BatchReadBlobs` + `BatchUpdateBlobs` pair. -/
inductive TransferEvent where
  | stream (d : Digest)
  | batch (ds : List Digest)
deriving DecidableEq

/-- Environment of `casRemoteToLocalTransferPart`: the outcomes of the remote
reads and local writes it performs. -/
structure TransferEnv where
  /-- Outcome of `remoteCAS.ReadStream` + `localCAS.WriteStream` + `io.Copy`
  for a single blob: `none` when any of the three fails, otherwise the byte
  count reported by `io.Copy`. -/
  streamCopy : Digest → Option Int
  /-- Outcome of `remoteCAS.BatchReadBlobs`: `none` on RPC error, otherwise
  the data of each returned entry. -/
  batchRead : List Digest → Option (List (List Nat))
  /-- Outcome of `localCAS.BatchUpdateBlobs`: `none` on error, otherwise the
  per-entry responses (digest and status). -/
  batchUpdate : List (Digest × List Nat) → Option (List (Digest × StatusCode))

/-- The greedy loop of `casRemoteToLocalTransferPart`: starting from
`cumulativeSize`, count how many further digests can be added before the
cumulative size would reach the threshold. -/
def greedyCount (cumulativeSize : Int) : List Digest → Nat
  | [] => 0
  | d :: rest =>
    if cumulativeSize + d.sizeBytes ≥ byteStreamThreshold then 0
    else greedyCount (cumulativeSize + d.sizeBytes) rest + 1

/-- Go `Prefetcher.casRemoteToLocalTransferPart` from
service/prefetcher/prefetcher.go: transfers either the head blob alone by
byte-stream (when its size reaches the threshold; the copy must move exactly
`size_bytes` bytes) or the greedy small prefix by one batch read + batch
update (failing when either response cardinality differs from the request).
Returns the transfer step performed and the digests still to transfer. -/
def casRemoteToLocalTransferPart (env : TransferEnv) (digests : List Digest) :
    Option (Option TransferEvent × List Digest) :=
  match digests with
  | [] => some (none, [])
  | d :: rest =>
    if d.sizeBytes ≥ byteStreamThreshold then
      match env.streamCopy d with
      | none => none
      | some n =>
        if n = d.sizeBytes then some (some (.stream d), rest) else none
    else
      let numDigests := greedyCount 0 (d :: rest)
      match env.batchRead ((d :: rest).take numDigests) with
      | none => none
      | some readResponses =>
        if readResponses.length ≠ numDigests then none
        else
          match env.batchUpdate (((d :: rest).take numDigests).zip readResponses) with
          | none => none
          | some response =>
            if response.length ≠ numDigests then none
            else
              some (some (.batch ((d :: rest).take numDigests)),
                (d :: rest).drop numDigests)

/-- Result of the enclosing transfer loop, with an explicit marker for
exhausting the iteration budget. -/
inductive TransferLoopResult where
  | ok (events : List TransferEvent)
  | err
  | outOfFuel
deriving DecidableEq

/-- Prepend an optional transfer step to a list of steps. -/
def consEvent : Option TransferEvent → List TransferEvent → List TransferEvent
  | none, events => events
  | some ev, events => ev :: events

/-- Go `Prefetcher.casRemoteToLocalTransfer` from
service/prefetcher/prefetcher.go: repeatedly call the part transfer until no
digests remain, collecting the transfer steps.  The iteration budget `fuel`
makes the recursion structural; the C10 theorem shows a budget of
`digests.length` is never exhausted. -/
def casRemoteToLocalTransferLoop (env : TransferEnv) :
    Nat → List Digest → TransferLoopResult
  | _, [] => .ok []
  | 0, _ :: _ => .outOfFuel
  | fuel + 1, d :: rest =>
    match casRemoteToLocalTransferPart env (d :: rest) with
    | none => .err
    | some (ev, remaining) =>
      match casRemoteToLocalTransferLoop env fuel remaining with
      | .ok events => .ok (consEvent ev events)
      | .err => .err
      | .outOfFuel => .outOfFuel

/-- The digests a transfer step moves. -/
def TransferEvent.digests : TransferEvent → List Digest
  | .stream d => [d]
  | .batch ds => ds

/-- All digests moved by a list of transfer steps, in order. -/
def eventsDigests (events : List TransferEvent) : List Digest :=
  (events.map TransferEvent.digests).flatten

/-- Cumulative size of a list of digests. -/
def sumSizes (ds : List Digest) : Int := (ds.map (fun d => d.sizeBytes)).sum

/-! ## Materialization (service/prefetcher/prefetcher.go, `materializeWithDigest`) -/

/-- Environment of `materializeWithDigest`: the prefetcher configuration and
the outcomes of the remote operations for the asset under consideration.  The
local CAS is threaded separately as the list of hash byte strings whose blob
files exist (`Disk.blobPath` names blobs by the hex of the hash alone). -/
structure MatEnv where
  digestFunction : Algorithm
  /-- whether a remote CAS client is configured (`p.remoteCAS != nil`) -/
  hasRemoteCAS : Bool
  /-- the digests present in the remote CAS (`FindMissingBlobs` filters
  against this set) -/
  remoteSet : List Digest
  /-- whether the remote `FindMissingBlobs` RPC succeeds -/
  remoteFindMissingOk : Bool
  /-- whether a remote-asset client is configured (`p.remoteAsset != nil`) -/
  hasRemoteAsset : Bool
  /-- outcome of `remoteAsset.FetchBlob`: `none` is an error (logged and
  treated as unavailable), `some bd` the returned blob digest -/
  fetchBlob : Option Digest
  /-- whether `remoteCAS.ReadStream` and `localCAS.WriteStream` open without
  error in the byte-stream transfer path -/
  streamOpenOk : Bool
  /-- outcome of `io.Copy` in the byte-stream transfer path: `none` is a copy
  error, `some n` the byte count copied -/
  streamCopy : Option Int
  /-- whether the streamed bytes pass the staging digest validation when the
  local write handle is closed.  Only then is the blob promoted (renamed) into
  the local CAS; the close error itself is discarded by the deferred
  `defer writer.Close()`, so the transfer reports success either way. -/
  streamContentValid : Bool
  /-- outcome of `remoteCAS.BatchReadBlobs` for the single digest -/
  batchRead : Option (List (List Nat))
  /-- whether the local `BatchUpdateBlobs` stages, validates and renames the
  blob with an OK status; any non-OK status also makes the local call return
  `BatchResponseHasNonZeroStatus`, which fails the transfer part -/
  batchUpdateOk : Bool
  /-- outcome of `downloader.FetchBlob`: `none` is an error; `some d2` is
  success, after which the downloaded blob is in the local CAS under its
  validated digest `d2` -/
  download : Option Digest

/-- Go `Disk.FindMissingBlobs` from service/cas/disk.go at the digest level:
the digests whose blob file (named by the hex of the hash under the digest
function) does not exist in the local CAS.  The stat-error and
directory-corruption failure modes are not modelled; the claim concerns
successful materialization. -/
def localFindMissing (localHashes : List (List Nat)) (digestFunction : Algorithm)
    (ds : List Digest) : List Digest :=
  ds.filter (fun d => ¬ localHashes.contains (d.hashBytes digestFunction))

/-- Go `Prefetcher.casRemoteToLocalTransfer` for the singleton list passed by
`materializeWithDigest`, with the local CAS state threaded through: the
byte-stream path succeeds when the copy moves exactly `size_bytes` bytes, but
the blob only appears in the local CAS when the close-time validation passes
(the close error is discarded); the batch path adds the blob exactly when the
local batch update succeeds. -/
def casRemoteToLocalTransferSingle (env : MatEnv) (d : Digest)
    (localHashes : List (List Nat)) : Option (List (List Nat)) :=
  if d.sizeBytes ≥ byteStreamThreshold then
    if env.streamOpenOk then
      match env.streamCopy with
      | none => none
      | some n =>
        if n = d.sizeBytes then
          some (if env.streamContentValid then
              d.hashBytes env.digestFunction :: localHashes
            else localHashes)
        else none
    else none
  else
    match env.batchRead with
    | none => none
    | some readResponses =>
      if readResponses.length ≠ 1 then none
      else if env.batchUpdateOk then
        some (d.hashBytes env.digestFunction :: localHashes)
      else none

/-- Go `Prefetcher.materializeWithDigest` from service/prefetcher/prefetcher.go
(second argument is the digest resolved from the checksum cache): check the
local CAS; if missing, check the remote CAS; if missing there and a
remote-asset client exists, `FetchBlob` (failing hard on a digest mismatch,
treating a fetch error as unavailable); if available remotely, transfer
remote→local and finish on success; otherwise fall back to the direct
downloader, whose success imports the downloaded blob under its own digest.
Returns the outcome (`some ()` is OK) and the new local CAS contents. -/
def materializeWithDigest (env : MatEnv) (d : Digest)
    (localHashes : List (List Nat)) : Option Unit × List (List Nat) :=
  let missingBlobs := localFindMissing localHashes env.digestFunction [d]
  if missingBlobs = [] then (some (), localHashes)
  else
    match (if env.hasRemoteCAS then
        (if env.remoteFindMissingOk then
          some ((missingBlobs.filter (fun x => ¬ env.remoteSet.contains x)).isEmpty)
        else none)
      else some false) with
    | none => (none, localHashes)
    | some avail0 =>
      match (if ¬ avail0 ∧ env.hasRemoteAsset ∧ env.hasRemoteCAS then
          match env.fetchBlob with
          | none => some avail0
          | some bd =>
            if d.Equals bd env.digestFunction then some true else none
        else some avail0) with
      | none => (none, localHashes)
      | some isAvailableRemotely =>
        match (if isAvailableRemotely then
            casRemoteToLocalTransferSingle env d localHashes
          else none) with
        | some localHashes2 => (some (), localHashes2)
        | none =>
          match env.download with
          | none => (none, localHashes)
          | some d2 => (some (), d2.hashBytes env.digestFunction :: localHashes)

/-! ## Leaf extended attributes (fs/node_leaf.go, `leaf.Getxattr`) -/

/-- Result of `leaf.Getxattr`: an errno, the attribute bytes with their size,
or a panic. -/
inductive XattrResult where
  | panicked
  | enodata
  | erange (needed : Nat)
  | eio
  | ok (size : Nat) (bytes : List Nat)
deriving DecidableEq

/-- Go `Digest.CopyHashInto` from integrity/integrity.go: fails when the
destination buffer is smaller than the hash, otherwise yields the hash bytes. -/
def copyHashInto (d : Digest) (destLen : Nat) (algorithm : Algorithm) :
    Option (List Nat) :=
  if destLen < algorithm.sizeBytes then none
  else some (d.hash.take algorithm.sizeBytes)

/-- Filesystem-root configuration relevant to `Getxattr`. -/
structure XattrConfig where
  digestHashAttributeName : String
  digestAlgorithm : Algorithm

def strUserDot : String := "user."

/-- Go `leaf.Getxattr` from fs/node_leaf.go.  The name is matched against the
configured digest attribute name, else against `user.<algorithm>` (the Buck2
compatibility path).  Afterwards a prefetch of the asset is issued: if it
fails the Go source panics outright.  In the fallback branch, the statement
`algorithm, ok := integrity.AlgorithmFromString(...)` declares a new inner
`algorithm` via the Go short declaration, shadowing the outer variable, so
after that branch the outer `algorithm` (read by `algorithm.SizeBytes()`)
still holds the zero value of the Algorithm struct, on which `SizeBytes`
panics; the outer variable is therefore modelled as `Option Algorithm` with
`none` for the zero value. -/
def leafGetxattr (cfg : XattrConfig) (leafDigest : Digest)
    (leafIntegrity : Integrity) (attr : String) (destLen : Nat)
    (prefetchOk : Bool) : XattrResult :=
  let resolved : Option (Digest × Option Algorithm) :=
    if attr = cfg.digestHashAttributeName then
      some (leafDigest, some cfg.digestAlgorithm)
    else if ¬ (attr.data.take 5 = strUserDot.data) then
      none
    else
      match algorithmFromChars (attr.data.drop 5) with
      | none => none
      | some alg =>
        match leafIntegrity.checksumForAlgorithm alg with
        | none => none
        | some checksum =>
          some (NewDigest checksum.hash leafDigest.sizeBytes checksum.algorithm, none)
  match resolved with
  | none => .enodata
  | some (digest, algorithmOuter) =>
    if ¬ prefetchOk then .panicked
    else
      match algorithmOuter with
      | none => .panicked
      | some algorithm =>
        let destSizeBytes := algorithm.sizeBytes
        if destLen < destSizeBytes then .erange destSizeBytes
        else
          match copyHashInto digest destLen algorithm with
          | none => .eio
          | some bytes => .ok destSizeBytes bytes

/-! ## Concrete values used by witnesses and counterexamples -/

/-- A sample initialized digest (32-byte hash of fives, size 7). -/
def dWit : Digest := NewDigest (List.replicate 32 5) 7 .sha256

/-- The uninitialized sentinel digest (all-zero buffer, size 0). -/
def dZero : Digest := { hash := List.replicate 64 0, sizeBytes := 0 }

/-- An integrity whose only checksum is a SHA-512 hash. -/
def integrityOnlySha512 : Integrity := { sha512 := some (List.replicate 64 7) }

def emptyStr : String := ""

def shortSri : String := "sha256"

def zeroSri : String := "sha256-AAAAAAAAAAAAAAAAAAAAAAAAAAAAAAAAAAAAAAAAAAA="

/-- Integrity used by the C2 witness: SHA-256 and SHA-512 checksums present. -/
def integrityWit : Integrity := { sha256 := some [1, 2, 3], sha512 := some [9, 9] }

/-- Digest used by the C2 witness. -/
def digestWit : Digest := NewDigest (List.replicate 32 4) 2727 .sha256

/-- A filesystem in which every blob file is absent. -/
def readFileMissing : Digest → FileReadOutcome := fun _ => .notExist

/-- A filesystem in which every blob file reads as the single byte 1. -/
def readFileContent : Digest → FileReadOutcome := fun _ => .content [1]

/-- Blob contents for the C5 witness. -/
def bWit : List Nat := [10, 11, 12, 13, 14]

/-- A digest of exactly threshold size (1 MiB). -/
def dBig : Digest := NewDigest (List.replicate 32 2) (2 ^ 20) .sha256

/-- A digest of a 4-byte blob. -/
def dSmall : Digest := NewDigest (List.replicate 32 3) 4 .sha256

/-- A transfer environment in which every operation succeeds. -/
def envWit : TransferEnv where
  streamCopy := fun d => some d.sizeBytes
  batchRead := fun l => some (l.map (fun _ => []))
  batchUpdate := fun l => some (l.map (fun p => (p.1, .ok)))

/-- Materialization environment for the C1 counterexample: the 1 MiB blob is in
the remote CAS, the byte-stream copy moves exactly its size in bytes, but the
streamed content fails the close-time digest validation. -/
def envC1 : MatEnv where
  digestFunction := .sha256
  hasRemoteCAS := true
  remoteSet := [dBig]
  remoteFindMissingOk := true
  hasRemoteAsset := false
  fetchBlob := none
  streamOpenOk := true
  streamCopy := some (2 ^ 20)
  streamContentValid := false
  batchRead := none
  batchUpdateOk := false
  download := none

def strUserSha256 : String := "user.sha256"

def strUserSha512 : String := "user.sha512"

/-- Xattr configuration for the C7 counterexample. -/
def cfgWit : XattrConfig where
  digestHashAttributeName := strUserSha256
  digestAlgorithm := .sha256

/-- Leaf integrity for the C7 counterexample: a SHA-512 checksum is present. -/
def integrityC7 : Integrity := { sha512 := some (List.replicate 64 9) }

/-! # Theorems -/

/-! ### C9 — digest equality and the uninitialized sentinel -/

/-- C9: every digest that is not the uninitialized sentinel is equal to itself
under any algorithm, and an uninitialized digest compares unequal to every
digest (on either side), including another uninitialized digest. -/
theorem digest_equals_refl_and_uninitialized_unequal (d e : Digest) (a : Algorithm) :
    (d.Uninitialized = false → d.Equals d a = true) ∧
    (d.Uninitialized = true → d.Equals e a = false ∧ e.Equals d a = false) := by
  refine ⟨fun h => ?_, fun h => ⟨?_, ?_⟩⟩
  · unfold Digest.Equals
    rw [h]
    simp only [Bool.false_or, Bool.or_self, if_false, bne_self_eq_false]
    cases a <;> simp
  · unfold Digest.Equals
    rw [h]
    simp
  · unfold Digest.Equals
    rw [h]
    simp

/-- Witness for C9 at concrete digests: the initialized sample digest equals
itself, and the uninitialized sentinel is unequal to the sample digest in both
argument orders (and to itself). -/
theorem digest_equals_refl_and_uninitialized_unequal_witness :
    dWit.Equals dWit .sha256 = true ∧
    (dZero.Equals dWit .sha256 = false ∧ dWit.Equals dZero .sha256 = false) ∧
    (dZero.Equals dZero .sha256 = false ∧ dZero.Equals dZero .sha256 = false) :=
  ⟨(digest_equals_refl_and_uninitialized_unequal dWit dWit .sha256).1 (by decide),
   (digest_equals_refl_and_uninitialized_unequal dZero dWit .sha256).2 (by decide),
   (digest_equals_refl_and_uninitialized_unequal dZero dZero .sha256).2 (by decide)⟩

/-! ### C3 — `Integrity.Equivalent` (code bug: SHA-512/Blake3 matches not counted) -/

/-- C3 (code bug evaluation): two integrities whose only common algorithm is
SHA-512 with equal hashes satisfy all three conditions of the claim (both
non-empty, all common hashes equal because the two sides are identical, and
SHA-512 present in both), yet the Go `Equivalent` returns false, because its
SHA-512 branch only increments `matchingChecksums` when the hashes differ. -/
theorem equivalent_sha512_only_counterexample :
    integrityOnlySha512.Empty = false ∧
    integrityOnlySha512.sha512.isSome = true ∧
    Integrity.Equivalent integrityOnlySha512 integrityOnlySha512 = false := by decide

/-! ### C8 — `ChecksumFromSRI` totality (code bug: crash on short input) -/

/-- C8 (code bug evaluation): `ChecksumFromSRI` panics (crashes) on any input
shorter than 7 bytes — the Go source slices `integrity[:7]` before any length
check — while a well-formed SRI string still parses to a checksum. -/
theorem checksumFromSRI_crashes_on_short_input :
    ChecksumFromSRI emptyStr = .crash ∧
    ChecksumFromSRI shortSri = .crash ∧
    ChecksumFromSRI zeroSri = .ok ⟨.sha256, List.replicate 32 0⟩ := by decide

/-! ### C2 — checksum cache: `PutIntegrity` then `FromIntegrity` -/

/-- Unfolding of the fold inside `PutIntegrity`: inserting a list of checksums
prepends one entry per checksum with a non-empty hash (in reverse order), all
carrying the same digest. -/
theorem foldl_putSlice_eq (l : List Checksum) (c : ChecksumCache) (D : Digest) :
    l.foldl (fun acc ch => acc.PutSlice ch.hash ch.algorithm.identifier D) c =
      ((l.filter (fun ch => ch.hash.length != 0)).reverse.map
        (fun ch => ((ch.hash, ch.algorithm.identifier), D))) ++ c := by
  induction l generalizing c with
  | nil => simp
  | cons ch rest ih =>
    by_cases hch : ch.hash.length = 0
    · simp only [List.foldl_cons, List.filter_cons]
      rw [ih]
      simp [ChecksumCache.PutSlice, hch]
    · simp only [List.foldl_cons, List.filter_cons]
      rw [ih]
      simp [ChecksumCache.PutSlice, hch]

/-- C2: for every starting cache, integrity `I` and digest `D`, after
`PutIntegrity I D`, looking up `FromIntegrity` on the integrity holding just
the checksum of `I` for any single algorithm `α` present in `I` (with a non-empty
hash, per the data-model invariant that an empty hash means absent) returns
exactly `D`. -/
theorem putIntegrity_fromIntegrity_single (c : ChecksumCache) (I : Integrity)
    (D : Digest) (α : Algorithm) (h : List Nat)
    (hpresent : I.hashFor α = some h) (hne : h ≠ []) :
    (c.PutIntegrity I D).FromIntegrity (I.justAlgorithm α) = some D := by
  have hlen : ¬ h.length = 0 := fun hc => hne (List.length_eq_zero.mp hc)
  have hitems : (I.justAlgorithm α).items = [⟨α, h⟩] := by
    cases α <;>
      simp only [Integrity.hashFor] at hpresent <;>
      simp [Integrity.justAlgorithm, Integrity.items, hpresent]
  have hmem : (⟨α, h⟩ : Checksum) ∈ I.items := by
    cases α <;>
      simp only [Integrity.hashFor] at hpresent <;>
      simp [Integrity.items, hpresent]
  rw [ChecksumCache.FromIntegrity, hitems]
  show (match (c.PutIntegrity I D).GetSlice h α.identifier with
    | some digest => some digest
    | none => fromIntegrityLoop (c.PutIntegrity I D) []) = some D
  suffices hget : (c.PutIntegrity I D).GetSlice h α.identifier = some D by
    rw [hget]
  rw [ChecksumCache.PutIntegrity, foldl_putSlice_eq]
  set P := ((I.items.filter (fun ch => ch.hash.length != 0)).reverse.map
    (fun ch => ((ch.hash, ch.algorithm.identifier), D))) with hP
  rw [ChecksumCache.GetSlice]
  rw [if_neg hlen]
  have hentry : ((h, α.identifier), D) ∈ P := by
    rw [hP]
    refine List.mem_map.mpr ⟨⟨α, h⟩, ?_, rfl⟩
    rw [List.mem_reverse]
    exact List.mem_filter.mpr ⟨hmem, by simp [hlen]⟩
  have hsome : (P.find? (fun e => e.1 = (h, α.identifier))).isSome := by
    refine List.find?_isSome.mpr ⟨((h, α.identifier), D), hentry, by simp⟩
  rcases hfind : P.find? (fun e => e.1 = (h, α.identifier)) with _ | e
  · rw [hfind] at hsome
    simp at hsome
  · have he : e ∈ P := List.mem_of_find?_eq_some hfind
    have he2 : e.2 = D := by
      rw [hP] at he
      rcases List.mem_map.mp he with ⟨ch, _, rfl⟩
      rfl
    rw [List.find?_append, hfind]
    simp [he2]

/-- Witness for C2: put an integrity carrying SHA-256 and SHA-512 checksums
with a concrete digest into the empty cache; the SHA-512-only lookup returns
that digest. -/
theorem putIntegrity_fromIntegrity_single_witness :
    (ChecksumCache.PutIntegrity ([] : ChecksumCache) integrityWit digestWit).FromIntegrity
      (integrityWit.justAlgorithm .sha512) = some digestWit :=
  putIntegrity_fromIntegrity_single ([] : ChecksumCache) integrityWit digestWit .sha512
    [9, 9] (by decide) (by decide)

/-! ### C6 — `Disk.BatchReadBlobs` (code bug: duplicated entry on failure) -/

/-- C6 (code bug evaluation): for a single digest whose blob is absent, the Go
`Disk.BatchReadBlobs` returns two per-entry results (a NOT_FOUND entry followed
by a spurious OK entry with nil data, because the error branches lack a
`continue`) instead of exactly one per input digest, while still reporting the
overall batch error; a readable digest yields exactly one OK entry and no
error. -/
theorem batchReadBlobs_duplicates_entry_for_missing_blob :
    (Disk.BatchReadBlobs readFileMissing [dWit]).1 =
      [⟨dWit, none, .notFound⟩, ⟨dWit, none, .ok⟩] ∧
    (Disk.BatchReadBlobs readFileMissing [dWit]).2 = true ∧
    (Disk.BatchReadBlobs readFileContent [dWit]).1 = [⟨dWit, some [1], .ok⟩] ∧
    (Disk.BatchReadBlobs readFileContent [dWit]).2 = false := by decide

/-! ### C5 — random-access reads over a local blob -/

/-- C5: a random-access reader opened on a local blob `B` with `0 ≤ offset` and
`0 < limit` yields through `read_at`, for every in-section position `off ≥ 0`
and every buffer size `count`, exactly the corresponding bytes of
`B[offset : min(offset+limit, S)]` — no more, no fewer, from the correct
position. -/
theorem readRandomAccess_yields_slice (B : List Nat) (offset limit off : Int)
    (count : Nat) (hoffset : 0 ≤ offset) (hlimit : 0 < limit) (hoff : 0 ≤ off) :
    Disk.readRandomAccessStreamReadAt B offset limit off count =
      some
        (((goSlice B offset.toNat
            (min (offset + limit) (B.length : Int)).toNat).drop off.toNat).take count) := by
  have hlim0 : ¬ limit = 0 := by omega
  simp only [Disk.readRandomAccessStreamReadAt, sectionReadAt, fileReadAt, goSlice,
    if_neg hlim0]
  by_cases hcase : off < 0 ∨ limit ≤ off
  · rw [if_pos hcase]
    have hge : limit ≤ off := by omega
    have hlen :
        ((B.take (min (offset + limit) (B.length : Int)).toNat).drop offset.toNat).length
          ≤ off.toNat := by
      simp only [List.length_drop, List.length_take]
      omega
    rw [List.drop_eq_nil_of_le hlen, List.take_nil]
  · rw [if_neg hcase]
    have hofflt : off < limit := by omega
    rw [if_neg (by omega : ¬ offset + off < 0)]
    congr 1
    rw [List.drop_drop, List.drop_take, List.take_take]
    have hA : (offset + off).toNat = offset.toNat + off.toNat := by omega
    rw [hA, List.take_eq_take]
    simp only [List.length_drop]
    split_ifs with hbig
    · omega
    · omega

/-- Witness for C5 at a concrete blob: reading the section `[1, 1+3)` of the
5-byte blob at relative offset 1 with a 5-byte buffer returns exactly the two
remaining section bytes. -/
theorem readRandomAccess_yields_slice_witness :
    Disk.readRandomAccessStreamReadAt bWit 1 3 1 5 = some [12, 13] :=
  (readRandomAccess_yields_slice bWit 1 3 1 5 (by decide) (by decide)
    (by decide)).trans (by decide)

/-! ### Shared lemmas about the greedy prefix and the transfer loop -/

theorem sumSizes_nil : sumSizes [] = 0 := rfl

theorem sumSizes_cons (d : Digest) (l : List Digest) :
    sumSizes (d :: l) = d.sizeBytes + sumSizes l := by
  simp [sumSizes]

theorem greedyCount_le_length (ds : List Digest) :
    ∀ cum : Int, greedyCount cum ds ≤ ds.length := by
  induction ds with
  | nil => intro cum; simp [greedyCount]
  | cons d rest ih =>
    intro cum
    rw [greedyCount]
    split
    · simp
    · simpa using ih (cum + d.sizeBytes)

theorem greedyCount_sum_lt (ds : List Digest) :
    ∀ cum : Int, cum < byteStreamThreshold →
      cum + sumSizes (ds.take (greedyCount cum ds)) < byteStreamThreshold := by
  induction ds with
  | nil => intro cum hcum; simpa [greedyCount, sumSizes_nil] using hcum
  | cons d rest ih =>
    intro cum hcum
    rw [greedyCount]
    split
    · simpa [sumSizes_nil] using hcum
    · rename_i hlt
      rw [List.take_succ_cons, sumSizes_cons]
      have := ih (cum + d.sizeBytes) (by omega)
      omega

theorem greedyCount_maximal (ds : List Digest) :
    ∀ (cum : Int) (d2 : Digest) (tl : List Digest),
      ds.drop (greedyCount cum ds) = d2 :: tl →
      cum + sumSizes (ds.take (greedyCount cum ds)) + d2.sizeBytes ≥
        byteStreamThreshold := by
  induction ds with
  | nil => intro cum d2 tl h; simp at h
  | cons d rest ih =>
    intro cum d2 tl h
    rw [greedyCount] at h ⊢
    by_cases hge : cum + d.sizeBytes ≥ byteStreamThreshold
    · rw [if_pos hge] at h ⊢
      simp only [List.drop_zero, List.cons.injEq] at h
      obtain ⟨rfl, rfl⟩ := h
      simpa [sumSizes_nil] using hge
    · rw [if_neg hge] at h ⊢
      rw [List.drop_succ_cons] at h
      rw [List.take_succ_cons, sumSizes_cons]
      have := ih (cum + d.sizeBytes) d2 tl h
      omega

/-- Every successful part transfer on a non-empty list consumes a non-empty
prefix: the event moves `ds.take k` and the remainder is `ds.drop k` for some
`1 ≤ k ≤ ds.length`. -/
theorem transferPart_consumes (env : TransferEnv) (ds : List Digest)
    (ev : Option TransferEvent) (rem : List Digest) (hne : ds ≠ [])
    (h : casRemoteToLocalTransferPart env ds = some (ev, rem)) :
    ∃ k, 1 ≤ k ∧ k ≤ ds.length ∧ rem = ds.drop k ∧
      ∃ e, ev = some e ∧ e.digests = ds.take k := by
  cases ds with
  | nil => exact absurd rfl hne
  | cons d rest =>
    have hk1 : d.sizeBytes < byteStreamThreshold → 1 ≤ greedyCount 0 (d :: rest) := by
      intro hsmall
      rw [greedyCount]
      rw [if_neg (by omega)]
      omega
    simp only [casRemoteToLocalTransferPart] at h
    split at h
    · -- byte-stream branch
      split at h
      · exact absurd h (by simp)
      · split at h
        · simp only [Option.some.injEq, Prod.mk.injEq] at h
          obtain ⟨hev, hrem⟩ := h
          exact ⟨1, le_refl 1, by simp, by simp [hrem.symm],
            .stream d, hev.symm, by simp [TransferEvent.digests]⟩
        · exact absurd h (by simp)
    · -- batch branch
      rename_i hbig
      split at h
      · exact absurd h (by simp)
      · split at h
        · exact absurd h (by simp)
        · split at h
          · exact absurd h (by simp)
          · split at h
            · exact absurd h (by simp)
            · simp only [Option.some.injEq, Prod.mk.injEq] at h
              obtain ⟨hev, hrem⟩ := h
              exact ⟨greedyCount 0 (d :: rest), hk1 (by omega),
                greedyCount_le_length (d :: rest) 0, hrem.symm,
                .batch ((d :: rest).take (greedyCount 0 (d :: rest))), hev.symm,
                rfl⟩

theorem eventsDigests_nil : eventsDigests [] = [] := rfl

theorem eventsDigests_cons (e : TransferEvent) (events : List TransferEvent) :
    eventsDigests (e :: events) = e.digests ++ eventsDigests events := by
  simp [eventsDigests]

/-- A successful transfer loop moves exactly the input digests, in order. -/
theorem transferLoop_ok_digests (env : TransferEnv) :
    ∀ (fuel : Nat) (ds : List Digest) (events : List TransferEvent),
      casRemoteToLocalTransferLoop env fuel ds = .ok events →
      eventsDigests events = ds := by
  intro fuel
  induction fuel with
  | zero =>
    intro ds events h
    cases ds with
    | nil =>
      simp only [casRemoteToLocalTransferLoop, TransferLoopResult.ok.injEq] at h
      rw [← h, eventsDigests_nil]
    | cons d rest => simp [casRemoteToLocalTransferLoop] at h
  | succ fuel ih =>
    intro ds events h
    cases ds with
    | nil =>
      simp only [casRemoteToLocalTransferLoop, TransferLoopResult.ok.injEq] at h
      rw [← h, eventsDigests_nil]
    | cons d rest =>
      rw [casRemoteToLocalTransferLoop] at h
      split at h
      · exact absurd h (by simp)
      · rename_i ev rem hp
        split at h
        · rename_i evs hl
          simp only [TransferLoopResult.ok.injEq] at h
          obtain ⟨k, _, _, hrem, e, hev, hed⟩ :=
            transferPart_consumes env (d :: rest) ev rem (by simp) hp
          rw [← h, hev, consEvent, eventsDigests_cons, hed, ih rem evs hl, hrem]
          exact List.take_append_drop k (d :: rest)
        · exact absurd h (by simp)
        · exact absurd h (by simp)

/-- A fuel budget of at least `ds.length` is never exhausted. -/
theorem transferLoop_no_outOfFuel (env : TransferEnv) :
    ∀ (fuel : Nat) (ds : List Digest), ds.length ≤ fuel →
      casRemoteToLocalTransferLoop env fuel ds ≠ .outOfFuel := by
  intro fuel
  induction fuel with
  | zero =>
    intro ds hle
    cases ds with
    | nil => simp [casRemoteToLocalTransferLoop]
    | cons d rest => simp at hle
  | succ fuel ih =>
    intro ds hle
    cases ds with
    | nil => simp [casRemoteToLocalTransferLoop]
    | cons d rest =>
      rw [casRemoteToLocalTransferLoop]
      split
      · simp
      · rename_i ev rem hp
        obtain ⟨k, hk1, _, hrem, _⟩ :=
          transferPart_consumes env (d :: rest) ev rem (by simp) hp
        have hremlen : rem.length ≤ fuel := by
          rw [hrem, List.length_drop]
          simp only [List.length_cons] at hle ⊢
          omega
        have hnofuel := ih rem hremlen
        split
        · simp
        · simp
        · rename_i hl
          exact absurd hl hnofuel

/-! ### C4 — remote→local transfer policy -/

/-- C4: for a non-empty digest list, (a) a head of at least 1 MiB is, on
success, transferred alone by byte-stream with the remainder returned, and the
transfer fails whenever the copy moves a byte count other than `size_bytes`;
(b) otherwise the transferred prefix is the greedy one: it contains at least
the head, its cumulative size stays below 1 MiB, it is maximal (the next digest
would reach the threshold), on success the event is a single batch over that
prefix with the rest returned, and a batch-read response of the wrong
cardinality fails the transfer; (c) a successful transfer loop moves every
digest exactly once, in order. -/
theorem transferPart_policy (env : TransferEnv) (d : Digest) (rest : List Digest) :
    (d.sizeBytes ≥ byteStreamThreshold →
      (∀ ev rem,
        casRemoteToLocalTransferPart env (d :: rest) = some (ev, rem) →
        ev = some (.stream d) ∧ rem = rest ∧
          env.streamCopy d = some d.sizeBytes) ∧
      (∀ n, env.streamCopy d = some n → n ≠ d.sizeBytes →
        casRemoteToLocalTransferPart env (d :: rest) = none)) ∧
    (d.sizeBytes < byteStreamThreshold →
      (1 ≤ greedyCount 0 (d :: rest) ∧
        sumSizes ((d :: rest).take (greedyCount 0 (d :: rest))) <
          byteStreamThreshold ∧
        (∀ d2 tl, (d :: rest).drop (greedyCount 0 (d :: rest)) = d2 :: tl →
          sumSizes ((d :: rest).take (greedyCount 0 (d :: rest))) + d2.sizeBytes ≥
            byteStreamThreshold)) ∧
      (∀ ev rem,
        casRemoteToLocalTransferPart env (d :: rest) = some (ev, rem) →
        ev = some (.batch ((d :: rest).take (greedyCount 0 (d :: rest)))) ∧
          rem = (d :: rest).drop (greedyCount 0 (d :: rest))) ∧
      (∀ rs, env.batchRead ((d :: rest).take (greedyCount 0 (d :: rest))) = some rs →
        rs.length ≠ greedyCount 0 (d :: rest) →
        casRemoteToLocalTransferPart env (d :: rest) = none)) ∧
    (∀ events,
      casRemoteToLocalTransferLoop env (d :: rest).length (d :: rest) = .ok events →
      eventsDigests events = d :: rest) := by
  have hTpos : (0 : Int) < byteStreamThreshold := by decide
  refine ⟨fun hbig => ⟨?_, ?_⟩, fun hsmall => ⟨⟨?_, ?_, ?_⟩, ?_, ?_⟩, ?_⟩
  · -- (a) success shape of the byte-stream branch
    intro ev rem h
    simp only [casRemoteToLocalTransferPart] at h
    rw [if_pos hbig] at h
    split at h
    · exact absurd h (by simp)
    · rename_i n hsc
      split at h
      · rename_i hn
        simp only [Option.some.injEq, Prod.mk.injEq] at h
        exact ⟨h.1.symm, h.2.symm, hn ▸ hsc⟩
      · exact absurd h (by simp)
  · -- (a) short or long copies fail
    intro n hsc hn
    simp only [casRemoteToLocalTransferPart]
    rw [if_pos hbig, hsc]
    show (if n = d.sizeBytes then
        some (some (TransferEvent.stream d), rest) else none) = none
    rw [if_neg hn]
  · -- (b) the greedy prefix contains the head
    rw [greedyCount, if_neg (by omega)]
    omega
  · -- (b) cumulative size below the threshold
    have := greedyCount_sum_lt (d :: rest) 0 hTpos
    omega
  · -- (b) maximality of the greedy prefix
    intro d2 tl hdrop
    have := greedyCount_maximal (d :: rest) 0 d2 tl hdrop
    omega
  · -- (b) success shape of the batch branch
    intro ev rem h
    simp only [casRemoteToLocalTransferPart] at h
    split at h
    · rename_i hbig
      omega
    · split at h
      · exact absurd h (by simp)
      · split at h
        · exact absurd h (by simp)
        · split at h
          · exact absurd h (by simp)
          · split at h
            · exact absurd h (by simp)
            · simp only [Option.some.injEq, Prod.mk.injEq] at h
              exact ⟨h.1.symm, h.2.symm⟩
  · -- (b) wrong batch-read cardinality fails
    intro rs hbr hlen
    simp only [casRemoteToLocalTransferPart]
    rw [if_neg (by omega), hbr]
    show (if rs.length ≠ greedyCount 0 (d :: rest) then none
        else
          match env.batchUpdate (((d :: rest).take (greedyCount 0 (d :: rest))).zip rs) with
          | none => none
          | some response =>
            if response.length ≠ greedyCount 0 (d :: rest) then none
            else
              some
                (some (TransferEvent.batch ((d :: rest).take (greedyCount 0 (d :: rest)))),
                  (d :: rest).drop (greedyCount 0 (d :: rest)))) = none
    rw [if_pos hlen]
  · -- (c) the loop moves every digest exactly once, in order
    intro events h
    exact transferLoop_ok_digests env (d :: rest).length (d :: rest) events h

/-- Witness for C4: in the always-successful environment, the 1 MiB blob is
copied with exactly its size by byte-stream, the greedy prefix of the small
singleton list is the non-empty list itself with cumulative size below the
threshold, and the successful loop moves exactly that digest. -/
theorem transferPart_policy_witness :
    envWit.streamCopy dBig = some dBig.sizeBytes ∧
    1 ≤ greedyCount 0 [dSmall] ∧
    sumSizes ([dSmall].take (greedyCount 0 [dSmall])) < byteStreamThreshold ∧
    eventsDigests [TransferEvent.batch [dSmall]] = [dSmall] := by
  refine ⟨(((transferPart_policy envWit dBig []).1 (by decide)).1
      (some (.stream dBig)) [] (by decide)).2.2, ?_, ?_, ?_⟩
  · exact (((transferPart_policy envWit dSmall []).2.1 (by decide)).1).1
  · exact (((transferPart_policy envWit dSmall []).2.1 (by decide)).1).2.1
  · exact (transferPart_policy envWit dSmall []).2.2
      [TransferEvent.batch [dSmall]] (by decide)

/-! ### C10 — transfer loop termination -/

/-- C10: every successful part transfer on a non-empty list returns a strictly
shorter suffix (it consumes at least the head), and consequently the enclosing
loop never exhausts an iteration budget of `digests.length`. -/
theorem transferLoop_terminates (env : TransferEnv) (ds : List Digest) :
    (∀ ev rem, ds ≠ [] →
      casRemoteToLocalTransferPart env ds = some (ev, rem) →
      rem.length < ds.length ∧ ∃ k, 1 ≤ k ∧ rem = ds.drop k) ∧
    casRemoteToLocalTransferLoop env ds.length ds ≠ .outOfFuel := by
  refine ⟨fun ev rem hne h => ?_,
    transferLoop_no_outOfFuel env ds.length ds (le_refl _)⟩
  obtain ⟨k, hk1, hk2, hrem, _⟩ := transferPart_consumes env ds ev rem hne h
  have hpos : 0 < ds.length := by
    cases ds with
    | nil => exact absurd rfl hne
    | cons d rest => simp
  refine ⟨?_, k, hk1, hrem⟩
  rw [hrem, List.length_drop]
  omega

/-- Witness for C10 at a concrete two-element list: the part transfer consumes
the small head and leaves the strictly shorter suffix, and the loop with budget
2 does not run out of fuel. -/
theorem transferLoop_terminates_witness :
    (([dBig] : List Digest).length < ([dSmall, dBig] : List Digest).length ∧
      ∃ k, 1 ≤ k ∧ ([dBig] : List Digest) = ([dSmall, dBig] : List Digest).drop k) ∧
    casRemoteToLocalTransferLoop envWit ([dSmall, dBig] : List Digest).length
      [dSmall, dBig] ≠ .outOfFuel :=
  ⟨(transferLoop_terminates envWit [dSmall, dBig]).1 (some (.batch [dSmall])) [dBig]
      (by decide) (by decide),
    (transferLoop_terminates envWit [dSmall, dBig]).2⟩

/-! ### C1 — materialize ensures local availability (code bug) -/

/-- C1 (code bug evaluation): with the 1 MiB blob present in the remote CAS but
absent locally, and the byte-stream copy moving exactly `size_bytes` bytes
whose content fails the close-time digest validation, `materializeWithDigest`
returns OK — the close error of the staging writer is discarded by
`defer writer.Close()` — yet the blob was never promoted into the local CAS,
so `local_cas.find_missing([digest])` still returns `[digest]` instead of the
empty list. -/
theorem materialize_ok_but_blob_missing :
    (materializeWithDigest envC1 dBig []).1 = some () ∧
    localFindMissing (materializeWithDigest envC1 dBig []).2 .sha256 [dBig] =
      [dBig] := by decide

/-! ### C7 — xattr prefetch side effect is not best-effort (code bug) -/

/-- C7 (code bug evaluation): a `getxattr` on the configured digest attribute
name panics when the triggered prefetch fails, instead of warning and
returning the hash bytes (which it does return when the prefetch succeeds);
moreover the `user.<algo>` fallback path panics even with a successful
prefetch, because the Go `:=` in that branch shadows the outer `algorithm`
variable, leaving it the zero value on which `SizeBytes()` panics. -/
theorem getxattr_panics_instead_of_best_effort :
    leafGetxattr cfgWit dWit integrityC7 strUserSha256 32 false = .panicked ∧
    leafGetxattr cfgWit dWit integrityC7 strUserSha256 32 true =
      .ok 32 (List.replicate 32 5) ∧
    leafGetxattr cfgWit dWit integrityC7 strUserSha512 64 true = .panicked := by
  decide

end AssetFuse
